import Mathlib

/-!
Shallow embedding of the PyMine `Buffer` wire-format codec
(`src/src/types/buffer.py`), together with theorems settling the frozen
claims about it.

Bytes are modelled as `List Nat` (each element one octet value).  Python
operations that can raise (`struct.pack`/`struct.unpack` on bad input,
the varint range checks) are modelled with `Except String`.  Python's
unbounded integers are `Int`/`Nat`; note that in `pack_varint` the Python
expression `num += 1 + 1 << 32` parses as `num += (1 + 1) << 32`
(addition binds tighter than shift), i.e. it adds `2 ^ 33`.
The zlib collaborator (an external library, not part of the repository)
is passed to `to_bytes`/`from_bytes` as explicit `compress`/`decompress`
function arguments.
-/

namespace PyMine

abbrev Bytes := List Nat

/-- The one entity of the data model: an owned byte sequence plus a read
cursor (`self.buf`, `self.pos` in the source; a fresh instance has
`pos = 0`). -/
structure Buffer where
  buf : Bytes
  pos : Nat
deriving DecidableEq

/-- `Buffer.write`: appends data to the owned bytes, cursor untouched. -/
def Buffer.write (b : Buffer) (data : Bytes) : Buffer :=
  { b with buf := b.buf ++ data }

/-- `Buffer.read`: with `some n`, returns the slice `buf[pos : pos+n]`
and advances `pos` by `n`; with `none` (the Python default), the source
first sets `length = len(self.buf)`, returns `buf[pos:]`, and the
`finally` block advances `pos` by that full original length.  The
source's `length` is a Python `int` and the cursor can in fact go
negative through `unpack_string`; every read exercised by the claims
settled on `Buffer` passes a non-negative length from a non-negative
cursor, so the cursor is kept a natural number here, and `IntBuffer`
further down re-embeds the class with the cursor and read lengths at
their full `int` generality (Python slice semantics included) for the
cursor-bounds claim, where the cursor's sign is itself in question. -/
def Buffer.read (b : Buffer) (length : Option Nat := none) : Bytes × Buffer :=
  match length with
  | none => (b.buf.drop b.pos, { b with pos := b.pos + b.buf.length })
  | some n => ((b.buf.drop b.pos).take n, { b with pos := b.pos + n })

/-- `Buffer.reset`: cursor back to 0. -/
def Buffer.reset (b : Buffer) : Buffer :=
  { b with pos := 0 }

/-- Error propagation: a Python exception in a sub-operation aborts the
caller with the same error, modelled by chaining on `Except`. -/
def exceptBind {α β : Type} (e : Except String α) (f : α → Except String β) :
    Except String β :=
  match e with
  | .error msg => .error msg
  | .ok v => f v

theorem exceptBind_ok {α β : Type} (v : α) (f : α → Except String β) :
    exceptBind (.ok v) f = f v := rfl

theorem exceptBind_error {α β : Type} (msg : String) (f : α → Except String β) :
    exceptBind (.error msg) f = .error msg := rfl

/-- Models `self.unpack('>B')`: read one byte; `struct.unpack` raises
when fewer than one byte remains. -/
def Buffer.unpackByte (b : Buffer) : Except String (Nat × Buffer) :=
  match b.read (some 1) with
  | ([x], b') => .ok (x, b')
  | _ => .error "struct.error: unpack requires a buffer of 1 bytes"

/-- The encoding loop of `Buffer.pack_varint` (`for i in range(10)`).
Python's `num & 0x7F` on a (possibly negative) unbounded int is
`Int.fmod num 128`, and `num >>= 7` is the floor division
`Int.fdiv num 128`; the continuation bit 0x80 is set when the shifted
value is still positive, and the loop breaks once it reaches zero. -/
def varintEncodeLoop : Nat → Int → Bytes
  | 0, _ => []
  | fuel + 1, num =>
    let b := (Int.fmod num 128).toNat
    let num' := Int.fdiv num 128
    (b ||| (if 0 < num' then 128 else 0)) ::
      (if num' = 0 then [] else varintEncodeLoop fuel num')

/-- `Buffer.pack_varint(num, max_bits=32)`: validates
`-2^(max_bits-1) <= num < 2^(max_bits-1)` (raising `ValueError`
otherwise), folds a negative value by adding `(1 + 1) <<< 32 = 2 ^ 33`
(the Python source line is `num += 1 + 1 << 32`), then emits the
7-bits-per-byte encoding. -/
def Buffer.pack_varint (num : Int) (max_bits : Nat := 32) : Except String Bytes :=
  let num_min : Int := -(2 ^ (max_bits - 1))
  let num_max : Int := 2 ^ (max_bits - 1)
  if num_min ≤ num ∧ num < num_max then
    .ok (varintEncodeLoop 10 (if num < 0 then num + (1 + 1) * 2 ^ 32 else num))
  else
    .error "num does not fit in given range"

/-- The decoding loop of `Buffer.unpack_varint` (`for i in range(10)`):
reads a byte, ORs its low 7 bits shifted by `7*i` into the accumulator,
and stops once a byte has its continuation bit clear (or after 10
bytes). -/
def varintDecodeLoop : Nat → Nat → Nat → Buffer → Except String (Nat × Buffer)
  | 0, num, _, b => .ok (num, b)
  | fuel + 1, num, i, b =>
    match b.unpackByte with
    | .error e => .error e
    | .ok (byte, b') =>
      let num' := num ||| ((byte &&& 127) <<< (7 * i))
      if byte &&& 128 = 0 then .ok (num', b')
      else varintDecodeLoop fuel num' (i + 1) b'

/-- `Buffer.unpack_varint(max_bits=32)`: runs the decode loop, then
re-interprets the accumulated value as 32-bit twos-complement (if bit 31
is set it subtracts `2 ^ 32`, regardless of `max_bits`), and finally
validates the result against `[-2^(max_bits-1), 2^(max_bits-1))`,
raising `ValueError` outside that range. -/
def Buffer.unpack_varint (b : Buffer) (max_bits : Nat := 32) : Except String (Int × Buffer) :=
  match varintDecodeLoop 10 0 0 b with
  | .error e => .error e
  | .ok (num, b') =>
    let signed : Int := if num &&& (1 <<< 31) ≠ 0 then (num : Int) - 2 ^ 32 else (num : Int)
    let num_min : Int := -(2 ^ (max_bits - 1))
    let num_max : Int := 2 ^ (max_bits - 1)
    if num_min ≤ signed ∧ signed < num_max then .ok (signed, b')
    else .error "num does not fit in given range"

/-- `Buffer.from_bytes(data, comp_thresh=-1)`: reads the outer varint
length, slices that many bytes as the frame body; when compression is
enabled (`comp_thresh >= 0`) reads the inner marker varint and inflates
the remainder when the marker is positive.  `decompress` stands for the
external `zlib.decompress`.  (A negative decoded slice length would make
Python index the slice from the end; no well-formed frame reaches that,
and we model it as a failure.) -/
def Buffer.from_bytes (decompress : Bytes → Bytes) (data : Bytes)
    (comp_thresh : Int := -1) : Except String Buffer :=
  exceptBind (Buffer.unpack_varint ⟨data, 0⟩ 32) fun (len, buf1) =>
    if len < 0 then .error "negative slice length"
    else
      let body : Buffer := ⟨(buf1.read (some len.toNat)).1, 0⟩
      if 0 ≤ comp_thresh then
        exceptBind (body.unpack_varint 32) fun (uncomp_len, buf2) =>
          if 0 < uncomp_len then .ok ⟨decompress (buf2.read none).1, 0⟩
          else .ok buf2
      else .ok body

/-- `Buffer.to_bytes(comp_thresh=-1)`: when `comp_thresh >= 0`, the inner
block is `varint(len(buf)) ++ compress(buf)` if `len(buf) >= comp_thresh`
and `varint(0) ++ buf` otherwise; the inner block (or, with compression
disabled, the raw payload) is then wrapped with an outer varint length.
`compress` stands for the external `zlib.compress`. -/
def Buffer.to_bytes (compress : Bytes → Bytes) (b : Buffer)
    (comp_thresh : Int := -1) : Except String Bytes :=
  let dataE : Except String Bytes :=
    if 0 ≤ comp_thresh then
      if comp_thresh ≤ (b.buf.length : Int) then
        exceptBind (Buffer.pack_varint (b.buf.length : Int) 32) fun pre =>
          .ok (pre ++ compress b.buf)
      else
        exceptBind (Buffer.pack_varint 0 32) fun pre => .ok (pre ++ b.buf)
    else .ok b.buf
  exceptBind dataE fun data =>
    exceptBind (Buffer.pack_varint (data.length : Int) 32) fun pre => .ok (pre ++ data)

/-- `Buffer.pack_string(text)`: the source UTF-8 encodes the text and
emits `pack_varint(len(text), max_bits=16) ++ text`; we model the text by
its UTF-8 byte sequence. -/
def Buffer.pack_string (text : Bytes) : Except String Bytes :=
  exceptBind (Buffer.pack_varint (text.length : Int) 16) fun pre => .ok (pre ++ text)

/-- `Buffer.unpack_string`: reads a `max_bits=16` varint length then that
many bytes (UTF-8 decoding is the identity bridge on the byte level; a
negative decoded length, which Python would treat as an index from the
end, is modelled as a failure and is unreachable from `pack_string`
output). -/
def Buffer.unpack_string (b : Buffer) : Except String (Bytes × Buffer) :=
  exceptBind (b.unpack_varint 16) fun (len, b') =>
    if len < 0 then .error "negative slice length"
    else .ok (b'.read (some len.toNat))

/-- The helper nested in `Buffer.pack_pos`: store a negative component by
adding `2 ^ bits`. -/
def to_twos_complement (num : Int) (bits : Nat) : Int :=
  if num < 0 then num + 2 ^ bits else num

/-- The helper nested in `Buffer.unpack_pos`: a field with bit
`bits - 1` set is re-interpreted by subtracting `2 ^ bits`. -/
def from_twos_complement (num : Nat) (bits : Nat) : Int :=
  if num &&& (1 <<< (bits - 1)) ≠ 0 then (num : Int) - 2 ^ bits else (num : Int)

/-- Models `struct.pack('>Q', v)`: eight big-endian bytes; raises
`struct.error` for a value outside `[0, 2^64)`. -/
def packUInt64 (v : Int) : Except String Bytes :=
  if 0 ≤ v ∧ v < 2 ^ 64 then
    let n := v.toNat
    .ok [(n >>> 56) &&& 255, (n >>> 48) &&& 255, (n >>> 40) &&& 255, (n >>> 32) &&& 255,
         (n >>> 24) &&& 255, (n >>> 16) &&& 255, (n >>> 8) &&& 255, n &&& 255]
  else .error "struct.error: argument out of range"

/-- Models `self.unpack('>Q')`: read eight bytes (raising when fewer
remain) and combine them big-endian. -/
def Buffer.unpackUInt64 (b : Buffer) : Except String (Nat × Buffer) :=
  match b.read (some 8) with
  | (bs, b') =>
    if bs.length = 8 then .ok (bs.foldl (fun acc byte => acc * 256 + byte) 0, b')
    else .error "struct.error: unpack requires a buffer of 8 bytes"

/-- `Buffer.pack_pos(x, y, z)`: one 64-bit big-endian word,
`x` in bits 63..38, `y` in bits 37..26, `z` in bits 25..0, each field
twos-complement within its width (the source sums the three shifted
fields and packs with `'>Q'`). -/
def Buffer.pack_pos (x y z : Int) : Except String Bytes :=
  packUInt64 (to_twos_complement x 26 * 2 ^ 38 +
    to_twos_complement y 12 * 2 ^ 26 + to_twos_complement z 26)

/-- `Buffer.unpack_pos`: reads a `'>Q'` word and splits it back into the
three twos-complement fields. -/
def Buffer.unpack_pos (b : Buffer) : Except String ((Int × Int × Int) × Buffer) :=
  exceptBind b.unpackUInt64 fun (data, b') =>
    .ok ((from_twos_complement (data >>> 38) 26,
          from_twos_complement ((data >>> 26) &&& 0xFFF) 12,
          from_twos_complement (data &&& 0x3FFFFFF) 26), b')

/-- `Buffer.pack_slot`: the source body is `pass`, so the call returns
`None` — no bytes are produced and nothing fails. -/
def Buffer.pack_slot : Option Bytes := none

/-- `Buffer.unpack_slot`: the source body is `pass`: no value is
returned, no bytes are consumed, the buffer is untouched, nothing
fails. -/
def Buffer.unpack_slot (b : Buffer) : Option Bytes × Buffer := (none, b)

/-- Did an operation raise? (`True` exactly on the `Except.error`
outcomes of the model, i.e. the paths where the Python source raises.) -/
def isErr {α : Type} : Except String α → Bool
  | .error _ => true
  | .ok _ => false

/-- `varintEncodeLoop` specialised to a non-negative value, phrased over
`Nat` (proof vehicle; `varintEncodeLoop_eq_loopN` ties it to the
source-faithful `Int` version). -/
def varintEncodeLoopN : Nat → Nat → Bytes
  | 0, _ => []
  | fuel + 1, num =>
    ((num % 128) ||| (if 0 < num / 128 then 128 else 0)) ::
      (if num / 128 = 0 then [] else varintEncodeLoopN fuel (num / 128))

/-! ### Varint codec lemmas -/

theorem varintEncodeLoop_eq_loopN : ∀ (fuel : Nat) (n : Nat),
    varintEncodeLoop fuel (n : Int) = varintEncodeLoopN fuel n := by
  intro fuel
  induction fuel with
  | zero => intro n; rfl
  | succ f ih =>
    intro n
    have hmod : Int.fmod (n : Int) 128 = ((n % 128 : Nat) : Int) :=
      (Int.ofNat_fmod n 128).symm
    have hdiv : Int.fdiv (n : Int) 128 = ((n / 128 : Nat) : Int) :=
      (Int.ofNat_fdiv n 128).symm
    have c1 : (0 : Int) < ((n / 128 : Nat) : Int) ↔ 0 < n / 128 := Int.ofNat_pos
    have c2 : ((n / 128 : Nat) : Int) = 0 ↔ n / 128 = 0 := Int.ofNat_eq_zero
    show ((Int.fmod (n : Int) 128).toNat ||| (if 0 < Int.fdiv (n : Int) 128 then 128 else 0)) ::
        (if Int.fdiv (n : Int) 128 = 0 then [] else varintEncodeLoop f (Int.fdiv (n : Int) 128))
      = varintEncodeLoopN (f + 1) n
    rw [hmod, hdiv, Int.toNat_natCast, if_congr c1 rfl rfl, if_congr c2 rfl (ih (n / 128))]
    rfl

theorem byte_and_127_of_lt (a : Nat) (h : a < 128) : a &&& 127 = a := by
  revert h; revert a; decide

theorem byte_and_128_of_lt (a : Nat) (h : a < 128) : a &&& 128 = 0 := by
  revert h; revert a; decide

theorem byte_or_flag_and_127 (a : Nat) (h : a < 128) : (a ||| 128) &&& 127 = a := by
  revert h; revert a; decide

theorem byte_or_flag_and_128 (a : Nat) (h : a < 128) : (a ||| 128) &&& 128 = 128 := by
  revert h; revert a; decide

/-- The 7-bit chunk ORed at position `7*i` and the rest ORed at
`7*(i+1)` reassemble the value at position `7*i`. -/
theorem lor_chunk (n i : Nat) :
    ((n % 128) <<< (7 * i)) ||| ((n / 128) <<< (7 * (i + 1))) = n <<< (7 * i) := by
  apply Nat.eq_of_testBit_eq
  intro j
  have h128 : (128 : Nat) = 2 ^ 7 := by norm_num
  have hdiv : n / 128 = n >>> 7 := by
    rw [Nat.shiftRight_eq_div_pow, h128]
  have hmod : n % 128 = n % 2 ^ 7 := by rw [h128]
  simp only [Nat.testBit_lor, Nat.testBit_shiftLeft, hdiv, hmod,
    Nat.testBit_mod_two_pow, Nat.testBit_shiftRight]
  rcases Nat.lt_or_ge j (7 * i) with hj | hj
  · have h1 : ¬ 7 * i ≤ j := Nat.not_le_of_lt hj
    have h2 : ¬ 7 * (i + 1) ≤ j := by omega
    simp [h1, h2]
  · rcases Nat.lt_or_ge j (7 * (i + 1)) with hj2 | hj2
    · have h2 : ¬ 7 * (i + 1) ≤ j := Nat.not_le_of_lt hj2
      have h3 : j - 7 * i < 7 := by omega
      simp [hj, h2, h3]
    · have h3 : ¬ (j - 7 * i < 7) := by omega
      have h4 : 7 + (j - 7 * (i + 1)) = j - 7 * i := by omega
      simp [hj, hj2, h3, h4, Nat.le_trans (by omega : 7 * i ≤ 7 * (i + 1)) hj2]

/-- Decoding what `varintEncodeLoopN` wrote: the decode loop consumes
exactly the emitted bytes and ORs the value, shifted by `7*i`, into the
accumulator. -/
theorem varintDecodeLoop_encode : ∀ (fuel : Nat) (n acc i : Nat) (l rest : Bytes) (p : Nat),
    n < 128 ^ fuel →
    l.drop p = varintEncodeLoopN fuel n ++ rest →
    varintDecodeLoop fuel acc i ⟨l, p⟩ =
      .ok (acc ||| (n <<< (7 * i)), ⟨l, p + (varintEncodeLoopN fuel n).length⟩) := by
  intro fuel
  induction fuel with
  | zero =>
    intro n acc i l rest p hn _
    have hn0 : n = 0 := by simpa using hn
    subst hn0
    simp [varintDecodeLoop, varintEncodeLoopN]
  | succ f ih =>
    intro n acc i l rest p hn hdrop
    have hmod : n % 128 < 128 := Nat.mod_lt _ (by norm_num)
    by_cases hz : n / 128 = 0
    · have hnlt : n < 128 := by omega
      have hmodn : n % 128 = n := Nat.mod_eq_of_lt hnlt
      have henc : varintEncodeLoopN (f + 1) n = [n] := by
        simp [varintEncodeLoopN, hz, hmodn]
      have hdrop' : l.drop p = n :: rest := by
        rw [hdrop, henc]; rfl
      have hread : Buffer.unpackByte ⟨l, p⟩ = .ok (n, ⟨l, p + 1⟩) := by
        simp [Buffer.unpackByte, Buffer.read, hdrop']
      simp only [varintDecodeLoop, hread]
      rw [byte_and_127_of_lt _ hnlt, byte_and_128_of_lt _ hnlt]
      simp [henc]
    · have hpos : 0 < n / 128 := Nat.pos_of_ne_zero hz
      have henc : varintEncodeLoopN (f + 1) n =
          ((n % 128) ||| 128) :: varintEncodeLoopN f (n / 128) := by
        simp [varintEncodeLoopN, hz, hpos]
      have hdrop' : l.drop p = ((n % 128) ||| 128) :: (varintEncodeLoopN f (n / 128) ++ rest) := by
        rw [hdrop, henc]; rfl
      have hread : Buffer.unpackByte ⟨l, p⟩ = .ok ((n % 128) ||| 128, ⟨l, p + 1⟩) := by
        simp [Buffer.unpackByte, Buffer.read, hdrop']
      have hdroptail : l.drop (p + 1) = varintEncodeLoopN f (n / 128) ++ rest := by
        have h1 : l.drop (p + 1) = (l.drop p).drop 1 := by
          rw [List.drop_drop, Nat.add_comm]
        rw [h1, hdrop']
        rfl
      have hfit : n / 128 < 128 ^ f := by
        apply (Nat.div_lt_iff_lt_mul (by norm_num : 0 < 128)).mpr
        calc n < 128 ^ (f + 1) := hn
        _ = 128 ^ f * 128 := by rw [Nat.pow_succ]
      simp only [varintDecodeLoop, hread]
      rw [byte_or_flag_and_127 _ hmod, byte_or_flag_and_128 _ hmod]
      rw [if_neg (by norm_num : ¬ (128 : Nat) = 0)]
      rw [ih (n / 128) (acc ||| ((n % 128) <<< (7 * i))) (i + 1) l rest (p + 1) hfit hdroptail]
      rw [Nat.lor_assoc, lor_chunk, henc]
      have hlen : ∀ k : Nat, p + 1 + k = p + (k + 1) := by omega
      rw [List.length_cons, hlen]

/-- `pack_varint` on a non-negative in-range value: the range check
passes, no folding happens, and the encode loop runs on the value
itself. -/
theorem pack_varint_nonneg (n : Nat) (mb : Nat) (h : (n : Int) < 2 ^ (mb - 1)) :
    Buffer.pack_varint (n : Int) mb = .ok (varintEncodeLoopN 10 n) := by
  unfold Buffer.pack_varint
  rw [if_pos ⟨le_trans (neg_nonpos.mpr (by positivity)) (Int.natCast_nonneg n), h⟩]
  rw [if_neg (by exact_mod_cast Int.not_lt.mpr (Int.natCast_nonneg n))]
  rw [varintEncodeLoop_eq_loopN]

/-- `unpack_varint` on a buffer whose remaining bytes start with the
encoding of a value below `2 ^ 31` (so the 32-bit sign re-interpretation
does not fire) and below the `max_bits` range bound: returns the value
and advances the cursor by exactly the encoding's length. -/
theorem unpack_varint_encode (n : Nat) (mb : Nat) (l rest : Bytes) (p : Nat)
    (h31 : n < 2 ^ 31) (hmb : (n : Int) < 2 ^ (mb - 1))
    (hdrop : l.drop p = varintEncodeLoopN 10 n ++ rest) :
    Buffer.unpack_varint ⟨l, p⟩ mb
      = .ok ((n : Int), ⟨l, p + (varintEncodeLoopN 10 n).length⟩) := by
  have hfit : n < 128 ^ 10 := lt_trans h31 (by norm_num)
  have hdec := varintDecodeLoop_encode 10 n 0 0 l rest p hfit hdrop
  have hb : n &&& (1 <<< 31) = 0 := by
    rw [Nat.one_shiftLeft, Nat.and_two_pow, Nat.testBit_lt_two_pow h31]
    rfl
  simp only [Buffer.unpack_varint, hdec, Nat.zero_or, Nat.mul_zero, Nat.shiftLeft_zero, hb,
    ne_eq, not_true_eq_false, not_false_eq_true, if_false, ite_false]
  rw [if_pos ⟨le_trans (neg_nonpos.mpr (by positivity)) (Int.natCast_nonneg n), hmb⟩]

/-! ### C1, C2: varint round-trip and the negative fold -/

/-- C1: the claimed round-trip `unpack_varint(Buffer(pack_varint(v))) = v`
for all `-2^31 ≤ v < 2^31` fails on the code for every negative `v`:
at `v = -1` the fold (`num += 1 + 1 << 32`, i.e. `+ 2^33`) makes
`pack_varint` emit the bytes of `2^33 - 1`, and `unpack_varint` then
reconstructs `2^33 - 1`, subtracts `2^32` (bit 31 is set), obtains
`2^32 - 1` — outside `[-2^31, 2^31)` — and raises the range error
instead of returning `-1`. -/
theorem varint_roundtrip_neg_one_raises :
    Buffer.pack_varint (-1) 32 = .ok [255, 255, 255, 255, 31] ∧
    Buffer.unpack_varint ⟨[255, 255, 255, 255, 31], 0⟩ 32
      = .error "num does not fit in given range" :=
  ⟨rfl, rfl⟩

/-- C2 counterexample: at `v = -1` the bytes actually emitted (those of
the unsigned value `-1 + 2^33`) differ from the bytes of
`-1 + (1 + 2^32)`, the folding constant the claim states. -/
theorem varint_fold_cex :
    Buffer.pack_varint (-1) 32 = .ok [255, 255, 255, 255, 31] ∧
    varintEncodeLoop 10 ((-1) + (1 + 2 ^ 32)) = [128, 128, 128, 128, 16] ∧
    ([255, 255, 255, 255, 31] : Bytes) ≠ [128, 128, 128, 128, 16] :=
  ⟨rfl, rfl, by decide⟩

/-- C2 (amended): for every in-range negative `v`, `pack_varint` folds by
adding `(1 + 1) <<< 32 = 2 ^ 33` — Python's `num += 1 + 1 << 32` parses
as `num += (1 + 1) << 32` — so the bytes emitted for `v` are those of the
unsigned value `v + 2 ^ 33`, not `v + (1 + 2 ^ 32)`. -/
theorem varint_fold_adds_two_pow_33 (v : Int) (h1 : -(2 ^ 31) ≤ v) (h2 : v < 0) :
    Buffer.pack_varint v 32 = .ok (varintEncodeLoop 10 (v + 2 ^ 33)) := by
  unfold Buffer.pack_varint
  rw [if_pos ⟨h1, lt_trans h2 (by norm_num)⟩, if_pos h2]
  have h : v + (1 + 1) * 2 ^ 32 = v + 2 ^ 33 := by ring
  rw [h]

/-- Witness for C2's amended theorem at `v = -1`. -/
theorem varint_fold_adds_two_pow_33_witness :
    Buffer.pack_varint (-1) 32 = .ok (varintEncodeLoop 10 ((-1) + 2 ^ 33)) :=
  varint_fold_adds_two_pow_33 (-1) (by norm_num) (by norm_num)

/-! ### C6: varint range rejection -/

/-- C6: `pack_varint(value, max_bits)` (for any `max_bits ≥ 1`, so that
the Python shift `-1 << (max_bits - 1)` is defined) fails exactly when
`value` lies outside `[-2^(max_bits-1), 2^(max_bits-1))` — the encode
loop itself never fails, and on failure the function raises before
building any bytes — and in particular `pack_varint(2^31)` and
`pack_varint(-2^31 - 1)` both fail at the default width. -/
theorem pack_varint_range_rejection :
    (∀ (v : Int) (mb : Nat), 1 ≤ mb →
      (isErr (Buffer.pack_varint v mb) = true ↔
        (v < -(2 ^ (mb - 1)) ∨ 2 ^ (mb - 1) ≤ v))) ∧
    isErr (Buffer.pack_varint (2 ^ 31) 32) = true ∧
    isErr (Buffer.pack_varint (-(2 ^ 31) - 1) 32) = true := by
  refine ⟨fun v mb _ => ?_, rfl, rfl⟩
  unfold Buffer.pack_varint
  by_cases h : -(2 ^ (mb - 1) : Int) ≤ v ∧ v < 2 ^ (mb - 1)
  · rw [if_pos h]
    simp only [isErr]
    constructor
    · intro hfalse; cases hfalse
    · intro habs
      rcases habs with habs | habs
      · exact absurd h.1 (not_le.mpr habs)
      · exact absurd h.2 (not_lt.mpr habs)
  · rw [if_neg h]
    simp only [isErr, true_iff]
    rcases not_and_or.mp h with h1 | h2
    · exact Or.inl (not_le.mp h1)
    · exact Or.inr (not_lt.mp h2)

/-- Witness for C6 at `v = 0`, `max_bits = 32` (plus the two closed
conjuncts, already hypothesis-free). -/
theorem pack_varint_range_rejection_witness :
    isErr (Buffer.pack_varint 0 32) = true ↔
      ((0 : Int) < -(2 ^ 31) ∨ (2 ^ 31 : Int) ≤ 0) :=
  pack_varint_range_rejection.1 0 32 (by norm_num)

/-! ### C7: the unbounded read quirk -/

/-- C7: `read` with the length omitted returns the slice from the cursor
to the end and then advances the cursor by the original full buffer
length (`len(self.buf)`), not by the number of bytes returned. -/
theorem read_unbounded_advances_by_full_length (b : Buffer) :
    b.read none = (b.buf.drop b.pos, ⟨b.buf, b.pos + b.buf.length⟩) := rfl

/-! ### C10: the slot stub -/

/-- C10: `pack_slot` produces no bytes and `unpack_slot` returns no
value, consumes nothing and leaves the buffer (bytes and cursor)
unchanged; neither fails. -/
theorem slot_stub_no_effect :
    Buffer.pack_slot = none ∧ ∀ b : Buffer, b.unpack_slot = (none, b) :=
  ⟨rfl, fun _ => rfl⟩

/-! ### C4: string round-trip -/

/-- `pack_string` rejects any text of byte length `2 ^ 15` or more: the
16-bit varint range check fails. -/
theorem pack_string_err (s : Bytes) (h : 2 ^ 15 ≤ s.length) :
    isErr (Buffer.pack_string s) = true := by
  unfold Buffer.pack_string Buffer.pack_varint
  rw [if_neg, exceptBind_error]
  · rfl
  · rintro ⟨-, hc⟩
    have h1 : ((2 ^ 15 : Nat) : Int) ≤ (s.length : Int) := by exact_mod_cast h
    have h2 : ((2 : Int) ^ (16 - 1)) = ((2 ^ 15 : Nat) : Int) := by norm_num
    omega

/-- C4 counterexample: a text whose UTF-8 byte length is `2^15` is
inside the claimed `< 2^16` bound, yet `pack_string` fails: the length
prefix is packed with `max_bits = 16`, whose range check demands
`length < 2^15`. -/
theorem string_length_2_pow_15_rejected :
    (List.replicate (2 ^ 15) 97).length < 2 ^ 16 ∧
    isErr (Buffer.pack_string (List.replicate (2 ^ 15) 97)) = true :=
  ⟨by rw [List.length_replicate]; norm_num,
   pack_string_err _ (by rw [List.length_replicate])⟩

/-- C4 (amended): for every UTF-8 string (modelled by its byte sequence)
whose byte length is strictly below `2 ^ 15` — not `2 ^ 16`; the 16-bit
varint length prefix is range-checked as a signed quantity —
`unpack_string` on a fresh buffer over `pack_string`'s output returns
the string and leaves the cursor at the end. -/
theorem string_roundtrip (s : Bytes) (h : s.length < 2 ^ 15) :
    ∃ bs, Buffer.pack_string s = .ok bs ∧
      Buffer.unpack_string ⟨bs, 0⟩ = .ok (s, ⟨bs, bs.length⟩) := by
  refine ⟨varintEncodeLoopN 10 s.length ++ s, ?_, ?_⟩
  · unfold Buffer.pack_string
    rw [pack_varint_nonneg s.length 16 (by exact_mod_cast h), exceptBind_ok]
  · unfold Buffer.unpack_string
    rw [unpack_varint_encode s.length 16 _ s 0 (by omega) (by exact_mod_cast h)
      (by rw [List.drop_zero]), exceptBind_ok]
    have hnn : ¬ ((s.length : Int) < 0) := Int.not_lt.mpr (Int.natCast_nonneg s.length)
    simp only [hnn, if_false, Buffer.read, Int.toNat_natCast, Nat.zero_add,
      List.drop_left, List.take_length, List.length_append]

/-- Witness for C4's amended theorem at the two-byte string "hi". -/
theorem string_roundtrip_witness :
    ∃ bs, Buffer.pack_string [104, 105] = .ok bs ∧
      Buffer.unpack_string ⟨bs, 0⟩ = .ok ([104, 105], ⟨bs, bs.length⟩) :=
  string_roundtrip [104, 105] (by norm_num)

/-! ### Frame codec lemmas (for C3 and C8) -/

/-- `from_bytes` on a well-formed outer frame `varint(len) ++ body`
(possibly followed by trailing bytes, which the length prefix slices
off): the outer layer always resolves to the body, with the inner
compression handling left. -/
theorem from_bytes_body (d : Bytes → Bytes) (body rest : Bytes) (t : Int)
    (hlen : (body.length : Int) < 2 ^ 31) :
    Buffer.from_bytes d (varintEncodeLoopN 10 body.length ++ (body ++ rest)) t =
      (if 0 ≤ t then
        exceptBind (Buffer.unpack_varint ⟨body, 0⟩ 32) fun (uncomp_len, buf2) =>
          if 0 < uncomp_len then .ok ⟨d (buf2.read none).1, 0⟩
          else .ok buf2
      else .ok ⟨body, 0⟩) := by
  unfold Buffer.from_bytes
  rw [unpack_varint_encode body.length 32 _ (body ++ rest) 0 (by exact_mod_cast hlen)
    (by exact_mod_cast hlen) (by rw [List.drop_zero]), exceptBind_ok]
  have hnn : ¬ ((body.length : Int) < 0) := Int.not_lt.mpr (Int.natCast_nonneg body.length)
  simp only [hnn, if_false, Buffer.read, Int.toNat_natCast, Nat.zero_add,
    List.drop_left, List.take_left]

/-- `from_bytes` with compression disabled returns a fresh buffer over
exactly the frame body. -/
theorem from_bytes_no_compression (d : Bytes → Bytes) (body rest : Bytes) (t : Int)
    (ht : t < 0) (hlen : (body.length : Int) < 2 ^ 31) :
    Buffer.from_bytes d (varintEncodeLoopN 10 body.length ++ (body ++ rest)) t
      = .ok ⟨body, 0⟩ := by
  rw [from_bytes_body d body rest t hlen, if_neg (Int.not_le.mpr ht)]

/-- `from_bytes` with compression enabled, on a frame whose body starts
with the zero marker: the returned buffer keeps the marker byte and its
cursor sits at 1, just past the marker. -/
theorem from_bytes_literal (d : Bytes → Bytes) (payload rest : Bytes) (t : Int)
    (ht : 0 ≤ t) (hlen : (((0 :: payload) : Bytes).length : Int) < 2 ^ 31) :
    Buffer.from_bytes d
        (varintEncodeLoopN 10 ((0 :: payload) : Bytes).length ++ ((0 :: payload) ++ rest)) t
      = .ok ⟨0 :: payload, 1⟩ := by
  rw [from_bytes_body d (0 :: payload) rest t hlen, if_pos ht]
  rw [unpack_varint_encode 0 32 (0 :: payload) payload 0 (by norm_num) (by norm_num) rfl,
    exceptBind_ok]
  rfl

/-- `from_bytes` with compression enabled, on a frame whose body is a
positive marker `m` followed by compressed bytes: the remainder is
inflated and returned in a fresh buffer at cursor 0. -/
theorem from_bytes_compressed (d : Bytes → Bytes) (m : Nat) (comp rest : Bytes) (t : Int)
    (ht : 0 ≤ t) (hm : 0 < m) (hm31 : (m : Int) < 2 ^ 31)
    (hlen : ((varintEncodeLoopN 10 m ++ comp).length : Int) < 2 ^ 31) :
    Buffer.from_bytes d (varintEncodeLoopN 10 (varintEncodeLoopN 10 m ++ comp).length
        ++ ((varintEncodeLoopN 10 m ++ comp) ++ rest)) t
      = .ok ⟨d comp, 0⟩ := by
  rw [from_bytes_body d (varintEncodeLoopN 10 m ++ comp) rest t hlen, if_pos ht]
  rw [unpack_varint_encode m 32 (varintEncodeLoopN 10 m ++ comp) comp 0
    (by exact_mod_cast hm31) (by exact_mod_cast hm31) (by rw [List.drop_zero]),
    exceptBind_ok]
  have hm0 : (0 : Int) < (m : Int) := by exact_mod_cast hm
  simp only [hm0, if_true, Buffer.read, Nat.zero_add]
  rw [List.drop_left]

/-! ### C8: what from_bytes returns -/

/-- C8 counterexample: decoding the frame of the one-byte payload `[97]`
built at threshold 100 (below-threshold literal path) returns a Buffer
that still contains the zero marker byte and whose cursor is 1, not a
Buffer over exactly the payload with cursor 0. -/
theorem from_bytes_cursor_cex :
    Buffer.from_bytes (fun x => x) [2, 0, 97] 100 = .ok ⟨[0, 97], 1⟩ ∧
    (Buffer.mk [0, 97] 1).buf ≠ [97] ∧ (Buffer.mk [0, 97] 1).pos ≠ 0 :=
  ⟨rfl, by decide, by decide⟩

/-- C8 (amended): `from_bytes` returns a Buffer over exactly the decoded
payload with cursor 0 when compression is disabled and on the
compressed (positive-marker) path; but on the `comp_thresh ≥ 0` path
with a zero marker it returns the frame body with the marker byte still
in front and the cursor at 1 (reading from it still yields the literal
payload). -/
theorem from_bytes_payload_and_cursor :
    (∀ (d : Bytes → Bytes) (body rest : Bytes) (t : Int), t < 0 →
      (body.length : Int) < 2 ^ 31 →
      Buffer.from_bytes d (varintEncodeLoopN 10 body.length ++ (body ++ rest)) t
        = .ok ⟨body, 0⟩) ∧
    (∀ (d : Bytes → Bytes) (payload rest : Bytes) (t : Int), 0 ≤ t →
      (((0 :: payload) : Bytes).length : Int) < 2 ^ 31 →
      Buffer.from_bytes d
          (varintEncodeLoopN 10 ((0 :: payload) : Bytes).length ++ ((0 :: payload) ++ rest)) t
        = .ok ⟨0 :: payload, 1⟩) ∧
    (∀ (d : Bytes → Bytes) (m : Nat) (comp rest : Bytes) (t : Int), 0 ≤ t → 0 < m →
      (m : Int) < 2 ^ 31 → ((varintEncodeLoopN 10 m ++ comp).length : Int) < 2 ^ 31 →
      Buffer.from_bytes d (varintEncodeLoopN 10 (varintEncodeLoopN 10 m ++ comp).length
          ++ ((varintEncodeLoopN 10 m ++ comp) ++ rest)) t
        = .ok ⟨d comp, 0⟩) :=
  ⟨fun d body rest t ht h => from_bytes_no_compression d body rest t ht h,
   fun d payload rest t ht h => from_bytes_literal d payload rest t ht h,
   fun d m comp rest t ht hm h31 h => from_bytes_compressed d m comp rest t ht hm h31 h⟩

/-- Witness for C8's amended theorem: the no-compression conjunct at the
one-byte payload `[97]`. -/
theorem from_bytes_payload_and_cursor_witness :
    Buffer.from_bytes (fun x => x)
        (varintEncodeLoopN 10 ([97] : Bytes).length ++ ([97] ++ [])) (-1) = .ok ⟨[97], 0⟩ :=
  from_bytes_payload_and_cursor.1 (fun x => x) [97] [] (-1) (by norm_num) (by norm_num)

/-! ### C3: frame round-trip -/

/-- C3 counterexample: at threshold `t = 0` with the empty payload the
compressed branch is taken with marker 0 (the payload length), so
`from_bytes` never inflates: the returned buffer yields the *compressed*
bytes, not the empty payload.  The compress/decompress pair used is a
faithful stand-in for zlib on this input: it round-trips the empty
payload (last conjunct), and like `zlib.compress(b'')` — which is the
8-byte sequence `78 9c 03 00 00 00 00 01` — it produces nonempty output
for empty input. -/
theorem frame_roundtrip_cex :
    Buffer.to_bytes (fun _ => [1, 1]) ⟨[], 0⟩ 0 = .ok [3, 0, 1, 1] ∧
    Buffer.from_bytes (fun _ => []) [3, 0, 1, 1] 0 = .ok ⟨[0, 1, 1], 1⟩ ∧
    ((Buffer.mk [0, 1, 1] 1).read none).1 = [1, 1] ∧
    ([1, 1] : Bytes) ≠ [] ∧
    (fun _ => ([] : Bytes)) ((fun _ => ([1, 1] : Bytes)) ([] : Bytes)) = ([] : Bytes) :=
  ⟨rfl, rfl, rfl, by decide, rfl⟩

/-- C3 (amended): the frame round-trip
`from_bytes(to_bytes(buf, t), t)` recovers the payload by reading, for
every threshold `t` and payload, provided the inner block also fits the
varint's range (the length actually prefixed is the inner block's, one
byte longer than the payload in the literal path) and the compressed
branch is not taken with an empty payload (`t = 0` with `payload = []`
is the one excluded combination); the zlib collaborator is any
`compress`/`decompress` pair that inverts on this payload. -/
theorem frame_roundtrip (compress decompress : Bytes → Bytes) (t : Int)
    (payload : Bytes) (p : Nat)
    (hinv : decompress (compress payload) = payload)
    (hne : ¬(t = 0 ∧ payload = []))
    (hfit : (payload.length : Int) + 1 < 2 ^ 31)
    (hcfit : ((varintEncodeLoopN 10 payload.length ++ compress payload).length : Int) < 2 ^ 31) :
    ∃ out b, Buffer.to_bytes compress ⟨payload, p⟩ t = .ok out ∧
      Buffer.from_bytes decompress out t = .ok b ∧ (b.read none).1 = payload := by
  have hl31 : (payload.length : Int) < 2 ^ 31 := by omega
  by_cases ht : 0 ≤ t
  · by_cases hth : t ≤ (payload.length : Int)
    · -- compressed path (threshold met)
      have hm : 0 < payload.length := by
        rcases Nat.eq_zero_or_pos payload.length with h0 | h0
        · exfalso
          refine hne ⟨le_antisymm ?_ ht, List.length_eq_zero.mp h0⟩
          calc t ≤ (payload.length : Int) := hth
          _ = 0 := by rw [h0]; rfl
        · exact h0
      refine ⟨varintEncodeLoopN 10 (varintEncodeLoopN 10 payload.length ++ compress payload).length
          ++ (varintEncodeLoopN 10 payload.length ++ compress payload), ⟨payload, 0⟩, ?_, ?_, ?_⟩
      · simp only [Buffer.to_bytes]
        rw [if_pos ht, if_pos hth,
          pack_varint_nonneg payload.length 32 (by exact_mod_cast hl31), exceptBind_ok,
          exceptBind_ok,
          pack_varint_nonneg (varintEncodeLoopN 10 payload.length ++ compress payload).length 32
            (by exact_mod_cast hcfit), exceptBind_ok]
      · have h := from_bytes_compressed decompress payload.length (compress payload) [] t ht hm
          hl31 hcfit
        rw [List.append_nil] at h
        rw [h, hinv]
      · simp [Buffer.read]
    · -- literal path (below threshold)
      have hfit' : (((0 :: payload) : Bytes).length : Int) < 2 ^ 31 := by
        rw [List.length_cons]; push_cast; omega
      refine ⟨varintEncodeLoopN 10 ((0 :: payload) : Bytes).length ++ (0 :: payload),
          ⟨0 :: payload, 1⟩, ?_, ?_, ?_⟩
      · simp only [Buffer.to_bytes]
        have h0 : Buffer.pack_varint 0 32 = .ok (varintEncodeLoopN 10 0) := by
          have h00 := pack_varint_nonneg 0 32 (by norm_num)
          simpa using h00
        rw [if_pos ht, if_neg hth, h0, exceptBind_ok, exceptBind_ok]
        rw [show varintEncodeLoopN 10 0 ++ payload = (0 :: payload : Bytes) from rfl,
          pack_varint_nonneg ((0 :: payload) : Bytes).length 32 (by exact_mod_cast hfit'),
          exceptBind_ok]
      · have h := from_bytes_literal decompress payload [] t ht hfit'
        rw [List.append_nil] at h
        exact h
      · simp [Buffer.read]
  · -- compression disabled
    refine ⟨varintEncodeLoopN 10 payload.length ++ payload, ⟨payload, 0⟩, ?_, ?_, ?_⟩
    · simp only [Buffer.to_bytes]
      rw [if_neg ht, exceptBind_ok,
        pack_varint_nonneg payload.length 32 (by exact_mod_cast hl31), exceptBind_ok]
    · have h := from_bytes_no_compression decompress payload [] t (Int.not_le.mp ht) hl31
      rw [List.append_nil] at h
      exact h
    · simp [Buffer.read]

/-- Witness for C3's amended theorem: the identity compressor, threshold
`-1`, payload `[97]`. -/
theorem frame_roundtrip_witness :
    ∃ out b, Buffer.to_bytes (fun x => x) ⟨[97], 0⟩ (-1) = .ok out ∧
      Buffer.from_bytes (fun x => x) out (-1) = .ok b ∧ (b.read none).1 = [97] :=
  frame_roundtrip (fun x => x) (fun x => x) (-1) [97] 0 rfl (by norm_num) (by norm_num)
    (by decide)

/-! ### Position codec lemmas (for C5) -/

theorem and_mask_mod (x k : Nat) : x &&& (2 ^ k - 1) = x % 2 ^ k :=
  Nat.and_pow_two_sub_one_eq_mod x k

/-- The top bit of a `k+1`-bit field is set exactly when the field's
value is at least `2 ^ k`. -/
theorem and_top_bit (a k : Nat) (h : a < 2 ^ (k + 1)) :
    (a &&& (1 <<< k) ≠ 0) ↔ 2 ^ k ≤ a := by
  rw [Nat.one_shiftLeft, Nat.and_two_pow, Nat.testBit_to_div_mod]
  rcases Nat.lt_or_ge a (2 ^ k) with h1 | h1
  · have hd : a / 2 ^ k = 0 := Nat.div_eq_of_lt h1
    rw [hd]
    simp [Nat.not_le.mpr h1]
  · have hd : a / 2 ^ k = 1 := by
      apply Nat.div_eq_of_lt_le
      · rw [Nat.one_mul]; exact h1
      · calc a < 2 ^ (k + 1) := h
        _ = (1 + 1) * 2 ^ k := by ring
    rw [hd]
    have hpos : 0 < 2 ^ k := Nat.pos_pow_of_pos k (by norm_num)
    simp [h1, Nat.pos_iff_ne_zero.mp hpos]

/-- Storing a `k+1`-bit-wide signed component with `to_twos_complement`
and re-reading it with `from_twos_complement` is the identity on
`[-2^k, 2^k)` — including both boundary values. -/
theorem twos_complement_roundtrip (v : Int) (k : Nat)
    (h1 : -(2 ^ k) ≤ v) (h2 : v < 2 ^ k) :
    from_twos_complement (to_twos_complement v (k + 1)).toNat (k + 1) = v := by
  have hsplit : (2 ^ (k + 1) : Int) = 2 ^ k + 2 ^ k := by ring
  have hknn : (0 : Int) ≤ 2 ^ k := by positivity
  unfold to_twos_complement from_twos_complement
  by_cases hv : v < 0
  · rw [if_pos hv]
    have hnn : (0 : Int) ≤ v + 2 ^ (k + 1) := by omega
    have hcast : ((v + 2 ^ (k + 1)).toNat : Int) = v + 2 ^ (k + 1) := Int.toNat_of_nonneg hnn
    have hka : 2 ^ k ≤ (v + 2 ^ (k + 1)).toNat := by
      have hc : ((2 ^ k : Nat) : Int) ≤ ((v + 2 ^ (k + 1)).toNat : Int) := by
        rw [hcast]; push_cast; omega
      exact_mod_cast hc
    have hka2 : (v + 2 ^ (k + 1)).toNat < 2 ^ (k + 1) := by
      have hc : ((v + 2 ^ (k + 1)).toNat : Int) < ((2 ^ (k + 1) : Nat) : Int) := by
        rw [hcast]; push_cast; omega
      exact_mod_cast hc
    rw [Nat.add_sub_cancel, if_pos ((and_top_bit _ k hka2).mpr hka)]
    rw [hcast]; ring
  · rw [if_neg hv]
    have hnn : (0 : Int) ≤ v := Int.not_lt.mp hv
    have hcast : (v.toNat : Int) = v := Int.toNat_of_nonneg hnn
    have hka2 : v.toNat < 2 ^ (k + 1) := by
      have hc : (v.toNat : Int) < ((2 ^ (k + 1) : Nat) : Int) := by
        rw [hcast]; push_cast; omega
      exact_mod_cast hc
    have hlt : ¬ (2 ^ k ≤ v.toNat) := by
      intro hc
      have : ((2 ^ k : Nat) : Int) ≤ (v.toNat : Int) := by exact_mod_cast hc
      rw [hcast] at this
      push_cast at this
      omega
    rw [Nat.add_sub_cancel, if_neg (fun hh => hlt ((and_top_bit _ k hka2).mp hh))]
    exact hcast

/-- Reading back the eight big-endian bytes of a 64-bit value. -/
theorem beVal_packBE (n : Nat) (h : n < 2 ^ 64) :
    List.foldl (fun acc byte => acc * 256 + byte) 0
      [(n >>> 56) &&& 255, (n >>> 48) &&& 255, (n >>> 40) &&& 255, (n >>> 32) &&& 255,
       (n >>> 24) &&& 255, (n >>> 16) &&& 255, (n >>> 8) &&& 255, n &&& 255] = n := by
  have h255 : ∀ x : Nat, x &&& 255 = x % 256 := fun x => by
    have e : (255 : Nat) = 2 ^ 8 - 1 := by norm_num
    rw [e, and_mask_mod]
    norm_num
  simp only [List.foldl, Nat.shiftRight_eq_div_pow, h255]
  norm_num at h ⊢
  omega

/-- `unpack('>Q')` on a buffer holding exactly eight bytes. -/
theorem unpackUInt64_eight (b0 b1 b2 b3 b4 b5 b6 b7 : Nat) :
    (Buffer.mk [b0, b1, b2, b3, b4, b5, b6, b7] 0).unpackUInt64
      = .ok (List.foldl (fun acc byte => acc * 256 + byte) 0 [b0, b1, b2, b3, b4, b5, b6, b7],
          ⟨[b0, b1, b2, b3, b4, b5, b6, b7], 8⟩) := rfl

/-- The position round-trip, packaged: for in-range coordinates,
`pack_pos` succeeds and `unpack_pos` recovers them exactly. -/
theorem pos_roundtrip_core (x y z : Int)
    (hx1 : -(2 ^ 25) ≤ x) (hx2 : x < 2 ^ 25)
    (hy1 : -(2 ^ 11) ≤ y) (hy2 : y < 2 ^ 11)
    (hz1 : -(2 ^ 25) ≤ z) (hz2 : z < 2 ^ 25) :
    ∃ bs, Buffer.pack_pos x y z = .ok bs ∧
      Buffer.unpack_pos ⟨bs, 0⟩ = .ok ((x, y, z), ⟨bs, 8⟩) := by
  obtain ⟨hX0, hX1⟩ : 0 ≤ to_twos_complement x 26 ∧ to_twos_complement x 26 < 2 ^ 26 := by
    unfold to_twos_complement
    split <;> constructor <;> omega
  obtain ⟨hY0, hY1⟩ : 0 ≤ to_twos_complement y 12 ∧ to_twos_complement y 12 < 2 ^ 12 := by
    unfold to_twos_complement
    split <;> constructor <;> omega
  obtain ⟨hZ0, hZ1⟩ : 0 ≤ to_twos_complement z 26 ∧ to_twos_complement z 26 < 2 ^ 26 := by
    unfold to_twos_complement
    split <;> constructor <;> omega
  set X := to_twos_complement x 26 with hXdef
  set Y := to_twos_complement y 12 with hYdef
  set Z := to_twos_complement z 26 with hZdef
  have hv0 : 0 ≤ X * 2 ^ 38 + Y * 2 ^ 26 + Z := by omega
  have hv1 : X * 2 ^ 38 + Y * 2 ^ 26 + Z < 2 ^ 64 := by omega
  set n := (X * 2 ^ 38 + Y * 2 ^ 26 + Z).toNat with hndef
  have hn64 : n < 2 ^ 64 := by omega
  have hdecomp : n = X.toNat * 2 ^ 38 + Y.toNat * 2 ^ 26 + Z.toNat := by omega
  have hbx : X.toNat < 2 ^ 26 := by omega
  have hby : Y.toNat < 2 ^ 12 := by omega
  have hbz : Z.toNat < 2 ^ 26 := by omega
  have hfx : n >>> 38 = X.toNat := by
    rw [Nat.shiftRight_eq_div_pow]
    omega
  have hfy : (n >>> 26) &&& 0xFFF = Y.toNat := by
    rw [Nat.shiftRight_eq_div_pow, show (0xFFF : Nat) = 2 ^ 12 - 1 by norm_num, and_mask_mod]
    omega
  have hfz : n &&& 0x3FFFFFF = Z.toNat := by
    rw [show (0x3FFFFFF : Nat) = 2 ^ 26 - 1 by norm_num, and_mask_mod]
    omega
  have hrx : from_twos_complement X.toNat 26 = x := by
    have h := twos_complement_roundtrip x 25 hx1 hx2
    rw [hXdef]
    simpa using h
  have hry : from_twos_complement Y.toNat 12 = y := by
    have h := twos_complement_roundtrip y 11 hy1 hy2
    rw [hYdef]
    simpa using h
  have hrz : from_twos_complement Z.toNat 26 = z := by
    have h := twos_complement_roundtrip z 25 hz1 hz2
    rw [hZdef]
    simpa using h
  refine ⟨[(n >>> 56) &&& 255, (n >>> 48) &&& 255, (n >>> 40) &&& 255, (n >>> 32) &&& 255,
      (n >>> 24) &&& 255, (n >>> 16) &&& 255, (n >>> 8) &&& 255, n &&& 255], ?_, ?_⟩
  · unfold Buffer.pack_pos packUInt64
    rw [← hXdef, ← hYdef, ← hZdef, if_pos ⟨hv0, hv1⟩, ← hndef]
  · unfold Buffer.unpack_pos
    rw [unpackUInt64_eight]
    simp only [exceptBind_ok]
    rw [beVal_packBE n hn64, hfx, hfy, hfz, hrx, hry, hrz]

/-- C5: position round-trip — for `x, z ∈ [-2^25, 2^25)` and
`y ∈ [-2^11, 2^11)`, `unpack_pos` on a fresh buffer over
`pack_pos(x, y, z)` returns exactly `(x, y, z)`; and the packing detail:
a negative component of width `b` is stored as `v + 2^b`, and a stored
field with bit `b-1` set is re-read as `value - 2^b`.  (The round-trip
holds at the boundary values too — see the witness, which instantiates
`x = -2^25`, `y = -2^11`, `z = 2^25 - 1`.) -/
theorem pos_roundtrip :
    (∀ x y z : Int, -(2 ^ 25) ≤ x → x < 2 ^ 25 → -(2 ^ 11) ≤ y → y < 2 ^ 11 →
      -(2 ^ 25) ≤ z → z < 2 ^ 25 →
      ∃ bs, Buffer.pack_pos x y z = .ok bs ∧
        Buffer.unpack_pos ⟨bs, 0⟩ = .ok ((x, y, z), ⟨bs, 8⟩)) ∧
    (∀ (v : Int) (bits : Nat), v < 0 → to_twos_complement v bits = v + 2 ^ bits) ∧
    (∀ (w bits : Nat), w &&& (1 <<< (bits - 1)) ≠ 0 →
      from_twos_complement w bits = (w : Int) - 2 ^ bits) := by
  refine ⟨fun x y z hx1 hx2 hy1 hy2 hz1 hz2 =>
    pos_roundtrip_core x y z hx1 hx2 hy1 hy2 hz1 hz2, fun v bits hv => ?_, fun w bits hw => ?_⟩
  · unfold to_twos_complement
    rw [if_pos hv]
  · unfold from_twos_complement
    rw [if_pos hw]

/-- Witness for C5 at the boundary coordinates
`(-2^25, -2^11, 2^25 - 1)`. -/
theorem pos_roundtrip_witness :
    ∃ bs, Buffer.pack_pos (-(2 ^ 25)) (-(2 ^ 11)) (2 ^ 25 - 1) = .ok bs ∧
      Buffer.unpack_pos ⟨bs, 0⟩ = .ok ((-(2 ^ 25), -(2 ^ 11), 2 ^ 25 - 1), ⟨bs, 8⟩) :=
  pos_roundtrip.1 (-(2 ^ 25)) (-(2 ^ 11)) (2 ^ 25 - 1) (by norm_num) (by norm_num)
    (by norm_num) (by norm_num) (by norm_num) (by norm_num)

/-! ### C9: the cursor-bounds invariant

The other claims only ever reach `read` with a non-negative length, so
`Buffer`'s natural-number cursor is adequate for them.  C9 asserts
bounds on the cursor itself, and the source's cursor is a Python `int`:
`unpack_string` hands its decoded 16-bit varint length — as low as
`-2^15` — straight to `read`, whose `finally: self.pos += length` then
*decreases* the cursor.  So for C9 the same source class is embedded
again with the cursor and read lengths at their full `int` generality,
as `IntBuffer`, and the operation set includes the typed unpack
operations (the typed `pack_*` operations are classmethods that build
bytes without touching any buffer, so they have no cursor effect). -/

/-- Python's slice `l[i:j]`: a negative index counts from the end of the
list, and both indices are then clamped to `[0, len l]`. -/
def pySlice (l : Bytes) (i j : Int) : Bytes :=
  let L : Int := l.length
  let i' : Int := if i < 0 then i + L else i
  let j' : Int := if j < 0 then j + L else j
  (l.take (max 0 (min j' L)).toNat).drop (max 0 (min i' L)).toNat

/-- At a non-negative start and length, the Python slice is
take-after-drop. -/
theorem pySlice_nonneg (l : Bytes) (p n : Nat) :
    pySlice l (p : Int) ((p : Int) + (n : Int)) = (l.drop p).take n := by
  simp only [pySlice]
  rw [if_neg (by omega), if_neg (by omega)]
  have e1 : (max (0 : Int) (min ((p : Int) + (n : Int)) (l.length : Int))).toNat
      = min (p + n) l.length := by omega
  have e2 : (max (0 : Int) (min (p : Int) (l.length : Int))).toNat = min p l.length := by omega
  rw [e1, e2]
  have hlen : (l.drop p).length = l.length - p := List.length_drop p l
  rcases Nat.le_total p l.length with hp | hp
  · rw [Nat.min_eq_left hp, List.drop_take]
    rcases Nat.le_total (p + n) l.length with hpn | hpn
    · rw [Nat.min_eq_left hpn, Nat.add_sub_cancel_left]
    · rw [Nat.min_eq_right hpn, List.take_of_length_le (by omega),
        List.take_of_length_le (by omega)]
  · rw [Nat.min_eq_right hp, Nat.min_eq_right (by omega), List.drop_take, Nat.sub_self,
      List.take_zero, List.drop_eq_nil_of_le hp, List.take_nil]

/-- The `Buffer` class re-embedded with the cursor as the source's
Python `int`; the operations are the same source lines as `Buffer`'s. -/
structure IntBuffer where
  buf : Bytes
  pos : Int
deriving DecidableEq

/-- `Buffer.write`, on the int-cursor embedding. -/
def IntBuffer.write (b : IntBuffer) (data : Bytes) : IntBuffer :=
  { b with buf := b.buf ++ data }

/-- `Buffer.read`, with the length as the source's `int`: returns the
Python slice `buf[pos : pos+length]` (`buf[pos:]` when the length is
omitted) and the `finally` block adds `length` — possibly negative — to
`pos`. -/
def IntBuffer.read (b : IntBuffer) (length : Option Int := none) : Bytes × IntBuffer :=
  match length with
  | none => (pySlice b.buf b.pos b.buf.length, { b with pos := b.pos + b.buf.length })
  | some n => (pySlice b.buf b.pos (b.pos + n), { b with pos := b.pos + n })

/-- `Buffer.reset`, on the int-cursor embedding. -/
def IntBuffer.reset (b : IntBuffer) : IntBuffer :=
  { b with pos := 0 }

/-- `self.unpack('>B')`, on the int-cursor embedding. -/
def IntBuffer.unpackByte (b : IntBuffer) : Except String (Nat × IntBuffer) :=
  match b.read (some 1) with
  | ([x], b') => .ok (x, b')
  | _ => .error "struct.error: unpack requires a buffer of 1 bytes"

/-- The `unpack_varint` decode loop, on the int-cursor embedding. -/
def varintDecodeLoopI : Nat → Nat → Nat → IntBuffer → Except String (Nat × IntBuffer)
  | 0, num, _, b => .ok (num, b)
  | fuel + 1, num, i, b =>
    match b.unpackByte with
    | .error e => .error e
    | .ok (byte, b') =>
      let num' := num ||| ((byte &&& 127) <<< (7 * i))
      if byte &&& 128 = 0 then .ok (num', b')
      else varintDecodeLoopI fuel num' (i + 1) b'

/-- `Buffer.unpack_varint`, on the int-cursor embedding. -/
def IntBuffer.unpack_varint (b : IntBuffer) (max_bits : Nat := 32) :
    Except String (Int × IntBuffer) :=
  match varintDecodeLoopI 10 0 0 b with
  | .error e => .error e
  | .ok (num, b') =>
    let signed : Int := if num &&& (1 <<< 31) ≠ 0 then (num : Int) - 2 ^ 32 else (num : Int)
    let num_min : Int := -(2 ^ (max_bits - 1))
    let num_max : Int := 2 ^ (max_bits - 1)
    if num_min ≤ signed ∧ signed < num_max then .ok (signed, b')
    else .error "num does not fit in given range"

/-- `Buffer.unpack_string`, on the int-cursor embedding: the decoded
16-bit varint length — which can be negative — goes straight to
`read`, exactly as in the source. -/
def IntBuffer.unpack_string (b : IntBuffer) : Except String (Bytes × IntBuffer) :=
  exceptBind (b.unpack_varint 16) fun (len, b') => .ok (b'.read (some len))

/-- `self.unpack('>Q')`, on the int-cursor embedding. -/
def IntBuffer.unpackUInt64 (b : IntBuffer) : Except String (Nat × IntBuffer) :=
  match b.read (some 8) with
  | (bs, b') =>
    if bs.length = 8 then .ok (bs.foldl (fun acc byte => acc * 256 + byte) 0, b')
    else .error "struct.error: unpack requires a buffer of 8 bytes"

/-- `Buffer.unpack_pos`, on the int-cursor embedding. -/
def IntBuffer.unpack_pos (b : IntBuffer) : Except String ((Int × Int × Int) × IntBuffer) :=
  exceptBind b.unpackUInt64 fun (data, b') =>
    .ok ((from_twos_complement (data >>> 38) 26,
          from_twos_complement ((data >>> 26) &&& 0xFFF) 12,
          from_twos_complement (data &&& 0x3FFFFFF) 26), b')

/-- `Buffer.unpack_slot`, on the int-cursor embedding: a `pass` stub. -/
def IntBuffer.unpack_slot (b : IntBuffer) : Option Bytes × IntBuffer := (none, b)

/-- One buffer operation of the set C9 quantifies over: the raw
mechanics (append, bounded read with an arbitrary `int` length,
unbounded read, reset) and the typed unpack operations, stepping to the
buffer a successful call leaves behind.  The remaining typed unpacks
(`unpack`, `unpack_array`, `unpack_bool`, `unpack_uuid`,
`unpack_rotation`, and the string-based `unpack_json`) move the cursor
only through `read` with a fixed non-negative length or through
`unpack_string`, so their cursor effects are instances of the
constructors below. -/
inductive IStep : IntBuffer → IntBuffer → Prop
  | write (b : IntBuffer) (data : Bytes) : IStep b (b.write data)
  | readSome (b : IntBuffer) (n : Int) : IStep b (b.read (some n)).2
  | readNone (b : IntBuffer) : IStep b (b.read none).2
  | reset (b : IntBuffer) : IStep b b.reset
  | unpackVarint (b b' : IntBuffer) (mb : Nat) (v : Int) :
      b.unpack_varint mb = .ok (v, b') → IStep b b'
  | unpackString (b b' : IntBuffer) (s : Bytes) :
      b.unpack_string = .ok (s, b') → IStep b b'
  | unpackPos (b b' : IntBuffer) (r : Int × Int × Int) :
      b.unpack_pos = .ok (r, b') → IStep b b'
  | unpackSlot (b : IntBuffer) : IStep b b.unpack_slot.2

/-- Reachability by a sequence of buffer operations. -/
def Reach : IntBuffer → IntBuffer → Prop := Relation.ReflTransGen IStep

/-- The claimed invariant: `0 ≤ position ≤ length of the owned bytes`. -/
def cursorInv (b : IntBuffer) : Prop := 0 ≤ b.pos ∧ b.pos ≤ (b.buf.length : Int)

/-- Reading one byte from a non-negative cursor: either nothing remains
(and `unpackByte` raises) or the cursor is strictly inside the buffer
and advances by exactly one. -/
theorem unpackByteI_cases (b : IntBuffer) (p : Nat) (hp : b.pos = (p : Int)) :
    (b.buf.length ≤ p ∧
      b.unpackByte = .error "struct.error: unpack requires a buffer of 1 bytes") ∨
    (p < b.buf.length ∧ ∃ x, b.unpackByte = .ok (x, ⟨b.buf, (p : Int) + 1⟩)) := by
  have hread : b.read (some 1) = ((b.buf.drop p).take 1, ⟨b.buf, (p : Int) + 1⟩) := by
    show (pySlice b.buf b.pos (b.pos + 1), (⟨b.buf, b.pos + 1⟩ : IntBuffer))
        = ((b.buf.drop p).take 1, ⟨b.buf, (p : Int) + 1⟩)
    rw [hp, show ((p : Int) + 1) = ((p : Int) + ((1 : Nat) : Int)) by norm_num, pySlice_nonneg]
  rcases hd : b.buf.drop p with _ | ⟨x, tl⟩
  · refine Or.inl ⟨List.drop_eq_nil_iff.mp hd, ?_⟩
    unfold IntBuffer.unpackByte
    rw [hread, hd]
    rfl
  · have hlt : p < b.buf.length := by
      by_contra hc
      rw [List.drop_eq_nil_of_le (by omega)] at hd
      cases hd
    refine Or.inr ⟨hlt, x, ?_⟩
    unfold IntBuffer.unpackByte
    rw [hread, hd]
    rfl

/-- A successful decode-loop run from an in-bounds non-negative cursor
keeps the bytes and leaves the cursor in bounds. -/
theorem varintDecodeLoopI_inv : ∀ (fuel acc i : Nat) (b b' : IntBuffer) (num : Nat),
    varintDecodeLoopI fuel acc i b = .ok (num, b') →
    0 ≤ b.pos → b.pos ≤ (b.buf.length : Int) →
    b'.buf = b.buf ∧ 0 ≤ b'.pos ∧ b'.pos ≤ (b.buf.length : Int) := by
  intro fuel
  induction fuel with
  | zero =>
    intro acc i b b' num h h0 h1
    simp only [varintDecodeLoopI, Except.ok.injEq, Prod.mk.injEq] at h
    obtain ⟨-, rfl⟩ := h
    exact ⟨rfl, h0, h1⟩
  | succ f ih =>
    intro acc i b b' num h h0 h1
    obtain ⟨p, hp⟩ : ∃ p : Nat, b.pos = (p : Int) := ⟨b.pos.toNat, (Int.toNat_of_nonneg h0).symm⟩
    rcases unpackByteI_cases b p hp with ⟨hle, hub⟩ | ⟨hlt, x, hub⟩
    · simp [varintDecodeLoopI, hub] at h
    · simp only [varintDecodeLoopI, hub] at h
      have hb1 : (0 : Int) ≤ (p : Int) + 1 := by omega
      have hb2 : ((p : Int) + 1) ≤ (b.buf.length : Int) := by
        have hc : ((p + 1 : Nat) : Int) ≤ ((b.buf.length : Nat) : Int) := by
          exact_mod_cast hlt
        push_cast at hc
        omega
      by_cases hc : x &&& 128 = 0
      · rw [if_pos hc] at h
        simp only [Except.ok.injEq, Prod.mk.injEq] at h
        obtain ⟨-, rfl⟩ := h
        exact ⟨rfl, hb1, hb2⟩
      · rw [if_neg hc] at h
        have hres := ih (acc ||| ((x &&& 127) <<< (7 * i))) (i + 1) ⟨b.buf, (p : Int) + 1⟩
          b' num h hb1 hb2
        exact ⟨hres.1, hres.2.1, hres.2.2⟩

/-- An `Except`-valued range check that succeeded pins down the
resulting buffer. -/
theorem ite_ok_buffer {c : Prop} [Decidable c] {s v : Int} {b1 b2 : IntBuffer} {msg : String}
    (h : (if c then Except.ok (s, b1) else Except.error msg) = Except.ok (v, b2)) :
    b2 = b1 := by
  by_cases hc : c
  · rw [if_pos hc] at h
    simp only [Except.ok.injEq, Prod.mk.injEq] at h
    exact h.2.symm
  · rw [if_neg hc] at h
    exact Except.noConfusion h

/-- A successful `unpack_varint` from an in-bounds non-negative cursor
keeps the bytes and leaves the cursor in bounds. -/
theorem unpack_varintI_inv (b b' : IntBuffer) (mb : Nat) (v : Int)
    (h : b.unpack_varint mb = .ok (v, b'))
    (h0 : 0 ≤ b.pos) (h1 : b.pos ≤ (b.buf.length : Int)) :
    b'.buf = b.buf ∧ 0 ≤ b'.pos ∧ b'.pos ≤ (b.buf.length : Int) := by
  unfold IntBuffer.unpack_varint at h
  cases hdec : varintDecodeLoopI 10 0 0 b with
  | error e =>
    rw [hdec] at h
    simp at h
  | ok r =>
    obtain ⟨num, b₁⟩ := r
    rw [hdec] at h
    have hinv := varintDecodeLoopI_inv 10 0 0 b b₁ num hdec h0 h1
    have h2 : (if -(2 ^ (mb - 1) : Int) ≤
            (if num &&& (1 <<< 31) ≠ 0 then (num : Int) - 2 ^ 32 else (num : Int)) ∧
            (if num &&& (1 <<< 31) ≠ 0 then (num : Int) - 2 ^ 32 else (num : Int))
              < 2 ^ (mb - 1)
        then Except.ok
          ((if num &&& (1 <<< 31) ≠ 0 then (num : Int) - 2 ^ 32 else (num : Int)), b₁)
        else Except.error "num does not fit in given range") = Except.ok (v, b') := h
    obtain rfl := ite_ok_buffer h2
    exact hinv

/-- A successful `unpack_pos` from an in-bounds non-negative cursor
keeps the bytes and leaves the cursor in bounds. -/
theorem unpack_posI_inv (b b' : IntBuffer) (r : Int × Int × Int)
    (h : b.unpack_pos = .ok (r, b'))
    (h0 : 0 ≤ b.pos) (h1 : b.pos ≤ (b.buf.length : Int)) :
    b'.buf = b.buf ∧ 0 ≤ b'.pos ∧ b'.pos ≤ (b.buf.length : Int) := by
  obtain ⟨p, hp⟩ : ∃ p : Nat, b.pos = (p : Int) := ⟨b.pos.toNat, (Int.toNat_of_nonneg h0).symm⟩
  have hread : b.read (some 8) = ((b.buf.drop p).take 8, ⟨b.buf, (p : Int) + 8⟩) := by
    show (pySlice b.buf b.pos (b.pos + 8), (⟨b.buf, b.pos + 8⟩ : IntBuffer))
        = ((b.buf.drop p).take 8, ⟨b.buf, (p : Int) + 8⟩)
    rw [hp, show ((p : Int) + 8) = ((p : Int) + ((8 : Nat) : Int)) by norm_num, pySlice_nonneg]
  simp only [IntBuffer.unpack_pos, IntBuffer.unpackUInt64, hread] at h
  by_cases hl : ((b.buf.drop p).take 8).length = 8
  · rw [if_pos hl, exceptBind_ok] at h
    simp only [Except.ok.injEq, Prod.mk.injEq] at h
    obtain ⟨-, rfl⟩ := h
    have h88 : p + 8 ≤ b.buf.length := by
      rw [List.length_take, List.length_drop] at hl
      omega
    refine ⟨rfl, ?_, ?_⟩
    · show (0 : Int) ≤ (p : Int) + 8
      omega
    · show ((p : Int) + 8) ≤ (b.buf.length : Int)
      have hc : ((p + 8 : Nat) : Int) ≤ ((b.buf.length : Nat) : Int) := by exact_mod_cast h88
      push_cast at hc
      omega
  · rw [if_neg hl, exceptBind_error] at h
    exact Except.noConfusion h

/-- C9 counterexample: the claimed invariant `0 ≤ position ≤ length`
fails on reachable states in both directions.  Upper bound: from a
freshly constructed `Buffer(b"ab")`, one in-bounds one-byte read
followed by one unbounded read leaves the cursor at 3 on a 2-byte
buffer.  Lower bound: from a fresh buffer over
`[128, 128, 254, 255, 15]` — whose 16-bit varint prefix decodes to
`-32768` — a single successful `unpack_string` call hands that negative
length to `read`, whose `finally` block then drives the cursor to
`-32763`. -/
theorem cursor_bounds_cex :
    (Reach ⟨[97, 98], 0⟩ ⟨[97, 98], 3⟩ ∧ ¬ cursorInv ⟨[97, 98], 3⟩) ∧
    (Reach ⟨[128, 128, 254, 255, 15], 0⟩ ⟨[128, 128, 254, 255, 15], -32763⟩ ∧
      ¬ cursorInv ⟨[128, 128, 254, 255, 15], -32763⟩) := by
  refine ⟨⟨?_, ?_⟩, ?_, ?_⟩
  · have h1 : IStep ⟨[97, 98], 0⟩ ⟨[97, 98], 1⟩ := by
      have h := IStep.readSome ⟨[97, 98], 0⟩ 1
      simpa [IntBuffer.read] using h
    have h2 : IStep ⟨[97, 98], 1⟩ ⟨[97, 98], 3⟩ := by
      have h := IStep.readNone ⟨[97, 98], 1⟩
      simpa [IntBuffer.read] using h
    exact Relation.ReflTransGen.head h1 (Relation.ReflTransGen.single h2)
  · unfold cursorInv
    decide
  · exact Relation.ReflTransGen.single
      (IStep.unpackString ⟨[128, 128, 254, 255, 15], 0⟩
        ⟨[128, 128, 254, 255, 15], -32763⟩ [] rfl)
  · unfold cursorInv
    decide

/-- C9 (amended): neither bound of `0 ≤ position ≤ length` is an
invariant of the full operation set (see the counterexample for both
violations); what the operations do maintain: `write`, `reset`, bounded
reads of non-negative length within the remaining bytes, the unbounded
read taken at cursor 0, `unpack_slot`, and every *successful*
`unpack_varint` and `unpack_pos` all preserve the bounds — the
violations come exactly from the unbounded read at a nonzero cursor
(which advances by the full original length) and from reads whose
length is negative (reachable through `unpack_string`) or beyond the
remaining bytes. -/
theorem cursor_bounds_guarded :
    (∀ (b : IntBuffer) (data : Bytes), cursorInv b → cursorInv (b.write data)) ∧
    (∀ (b : IntBuffer) (n : Int), 0 ≤ n → b.pos + n ≤ (b.buf.length : Int) → cursorInv b →
      cursorInv (b.read (some n)).2) ∧
    (∀ b : IntBuffer, b.pos = 0 → cursorInv (b.read none).2) ∧
    (∀ b : IntBuffer, cursorInv b.reset) ∧
    (∀ b : IntBuffer, cursorInv b → cursorInv b.unpack_slot.2) ∧
    (∀ (b b' : IntBuffer) (mb : Nat) (v : Int),
      b.unpack_varint mb = .ok (v, b') → cursorInv b → cursorInv b') ∧
    (∀ (b b' : IntBuffer) (r : Int × Int × Int),
      b.unpack_pos = .ok (r, b') → cursorInv b → cursorInv b') := by
  refine ⟨?_, ?_, ?_, ?_, ?_, ?_, ?_⟩
  · intro b data hinv
    unfold cursorInv IntBuffer.write at *
    obtain ⟨h0, h1⟩ := hinv
    refine ⟨h0, ?_⟩
    simp only [List.length_append]
    push_cast
    omega
  · intro b n hn hle hinv
    unfold cursorInv at *
    obtain ⟨h0, h1⟩ := hinv
    refine ⟨?_, ?_⟩
    · show (0 : Int) ≤ b.pos + n
      omega
    · show b.pos + n ≤ (b.buf.length : Int)
      exact hle
  · intro b hpz
    unfold cursorInv
    constructor
    · show (0 : Int) ≤ b.pos + b.buf.length
      rw [hpz]
      positivity
    · show b.pos + (b.buf.length : Int) ≤ (b.buf.length : Int)
      rw [hpz]
      simp
  · intro b
    unfold cursorInv IntBuffer.reset
    exact ⟨le_refl 0, by positivity⟩
  · intro b hinv
    exact hinv
  · intro b b' mb v h hinv
    unfold cursorInv at *
    obtain ⟨h0, h1⟩ := hinv
    obtain ⟨hb, h2, h3⟩ := unpack_varintI_inv b b' mb v h h0 h1
    exact ⟨h2, by rw [hb]; exact h3⟩
  · intro b b' r h hinv
    unfold cursorInv at *
    obtain ⟨h0, h1⟩ := hinv
    obtain ⟨hb, h2, h3⟩ := unpack_posI_inv b b' r h h0 h1
    exact ⟨h2, by rw [hb]; exact h3⟩

/-- Witness for C9's amended theorem: the guarded-bounded-read conjunct,
reading one byte from the start of a one-byte buffer. -/
theorem cursor_bounds_guarded_witness :
    cursorInv ((IntBuffer.mk [5] 0).read (some 1)).2 :=
  cursor_bounds_guarded.2.1 ⟨[5], 0⟩ 1 (by norm_num) (by norm_num)
    (by unfold cursorInv; norm_num)

end PyMine
